import Mathlib

/-
  Verification of the hierarchical 2D transform system of the ebi-math
  library (package ebimath).  The embedding below translates the Go
  source (transform.go, vector.go, utils.go) into Lean over the real
  numbers: float64 arithmetic is modelled by exact real arithmetic, so
  the floating tolerances of the specification become exact equalities.
  The Matrix type of the library is an alias of the external affine
  matrix primitive (ebiten GeoM, a 2x3 affine matrix whose zero value is
  the identity); it is embedded here following its documented contract:
  Scale/Translate/Rotate compose onto the existing matrix in the order
  applied, Concat(other) post-composes other after self, Apply maps a
  point, Invert is the affine inverse (defined when the determinant is
  nonzero; the library leaves the singular case unguarded).
-/

noncomputable section

namespace EbiMath

open Real

/-- A 2D vector, as in vector.go: a pair of float64 coordinates. -/
@[ext]
structure Vector where
  x : ℝ
  y : ℝ

/-- The constructor V of vector.go. -/
def V (x y : ℝ) : Vector := ⟨x, y⟩

/-- The constructor V2 of vector.go: both coordinates equal. -/
def V2 (v : ℝ) : Vector := ⟨v, v⟩

/-- Componentwise product, method Mul of vector.go. -/
def Vector.Mul (v w : Vector) : Vector := ⟨v.x * w.x, v.y * w.y⟩

/-- The predicate IsZero of vector.go: both coordinates are zero. -/
def Vector.IsZero (v : Vector) : Prop := v.x = 0 ∧ v.y = 0

/-- The affine matrix primitive (ebiten GeoM).  Stored as the six
entries of the 2x3 matrix; Apply maps (x, y) to
(a x + b y + tx, c x + d y + ty).  GeoM stores a - 1 and d - 1 so that
its Go zero value is the identity; we represent the entries directly
and write the zero value as idM. -/
@[ext]
structure Matrix where
  a : ℝ
  b : ℝ
  c : ℝ
  d : ℝ
  tx : ℝ
  ty : ℝ

/-- The zero GeoM value, which is the identity matrix. -/
def Matrix.idM : Matrix := ⟨1, 0, 0, 1, 0, 0⟩

/-- GeoM Apply: transform a point by the affine matrix. -/
def Matrix.Apply (m : Matrix) (x y : ℝ) : ℝ × ℝ :=
  (m.a * x + m.b * y + m.tx, m.c * x + m.d * y + m.ty)

/-- GeoM Scale: scale the whole matrix rows (including translation). -/
def Matrix.Scale (m : Matrix) (sx sy : ℝ) : Matrix :=
  ⟨m.a * sx, m.b * sx, m.c * sy, m.d * sy, m.tx * sx, m.ty * sy⟩

/-- GeoM Translate: add to the translation entries. -/
def Matrix.Translate (m : Matrix) (t u : ℝ) : Matrix :=
  { m with tx := m.tx + t, ty := m.ty + u }

/-- GeoM Rotate: post-compose a rotation by the given angle. -/
def Matrix.Rotate (m : Matrix) (θ : ℝ) : Matrix :=
  ⟨cos θ * m.a - sin θ * m.c,
   cos θ * m.b - sin θ * m.d,
   sin θ * m.a + cos θ * m.c,
   sin θ * m.b + cos θ * m.d,
   cos θ * m.tx - sin θ * m.ty,
   sin θ * m.tx + cos θ * m.ty⟩

/-- GeoM Concat: self becomes other composed after self, i.e. applying
the result equals applying self first and then other. -/
def Matrix.Concat (m other : Matrix) : Matrix :=
  ⟨other.a * m.a + other.b * m.c,
   other.a * m.b + other.b * m.d,
   other.c * m.a + other.d * m.c,
   other.c * m.b + other.d * m.d,
   other.a * m.tx + other.b * m.ty + other.tx,
   other.c * m.tx + other.d * m.ty + other.ty⟩

/-- Determinant of the linear part of the affine matrix. -/
def Matrix.det (m : Matrix) : ℝ := m.a * m.d - m.b * m.c

/-- GeoM Invert: the affine inverse.  GeoM panics when the determinant
is zero; here division by zero makes the result degenerate, and every
theorem that relies on inversion carries the hypothesis det ≠ 0. -/
def Matrix.Invert (m : Matrix) : Matrix :=
  ⟨m.d / m.det, -m.b / m.det, -m.c / m.det, m.a / m.det,
   (-m.d * m.tx + m.b * m.ty) / m.det,
   (m.c * m.tx - m.a * m.ty) / m.det⟩

/-- Vector.Apply of vector.go: transform the vector by the matrix. -/
def Vector.Apply (v : Vector) (m : Matrix) : Vector :=
  ⟨m.a * v.x + m.b * v.y + m.tx, m.c * v.x + m.d * v.y + m.ty⟩

theorem Vector.apply_concat (v : Vector) (m o : Matrix) :
    v.Apply (m.Concat o) = (v.Apply m).Apply o := by
  ext <;> simp [Vector.Apply, Matrix.Concat] <;> ring

theorem Vector.apply_invert_right (v : Vector) (m : Matrix) (h : m.det ≠ 0) :
    (v.Apply m).Apply m.Invert = v := by
  have hd : m.a * m.d - m.b * m.c ≠ 0 := h
  ext <;> simp [Vector.Apply, Matrix.Invert, Matrix.det] <;>
    field_simp <;> ring

theorem Vector.apply_invert_left (v : Vector) (m : Matrix) (h : m.det ≠ 0) :
    (v.Apply m.Invert).Apply m = v := by
  have hd : m.a * m.d - m.b * m.c ≠ 0 := h
  ext <;> simp [Vector.Apply, Matrix.Invert, Matrix.det] <;>
    field_simp <;> ring

/-- The per-node fields of the Transform struct of transform.go:
local pose (position, scale, offset, origin, rotation), the two dirty
flags, and the three cached matrices.  The parent pointer is carried by
the Transform tree below. -/
structure TData where
  position : Vector
  scale : Vector
  offset : Vector
  origin : Vector
  rotation : ℝ
  dirty : Bool
  parentDirty : Bool
  matrix : Matrix
  parentMatrix : Matrix
  parentInverted : Matrix

/-- A Transform together with its chain of parents.  In Go the parent
is a pointer to another Transform; a node here carries its parent chain
inline, and the state updates that Go performs through the pointer
(cache refreshes during reads) are threaded explicitly by returning the
updated tree. -/
inductive Transform where
  | root (d : TData)
  | node (d : TData) (parent : Transform)

/-- The own fields of a Transform, regardless of the parent link. -/
def Transform.data : Transform → TData
  | .root d => d
  | .node d _ => d

/-- Update the own fields of a Transform, keeping the parent link. -/
def Transform.mapData (t : Transform) (f : TData → TData) : Transform :=
  match t with
  | .root d => .root (f d)
  | .node d p => .node (f d) p

/-- The constructor T of transform.go: Go zero values for every field
except scale, which is V2(1).  The zero GeoM value is the identity and
both dirty flags are false. -/
def T : Transform :=
  .root { position := V2 0, scale := V2 1, offset := V2 0, origin := V2 0,
          rotation := 0, dirty := false, parentDirty := false,
          matrix := Matrix.idM, parentMatrix := Matrix.idM,
          parentInverted := Matrix.idM }

/-- The matrix built by MatrixForParenting from the node-local fields:
Matrix{} then Scale(scale), Translate(-offset*scale), Rotate(rotation),
Translate(position), exactly as in transform.go lines 207-211. -/
def TData.parentingMatrix (d : TData) : Matrix :=
  ((((Matrix.idM).Scale d.scale.x d.scale.y).Translate
      (-d.offset.x * d.scale.x) (-d.offset.y * d.scale.y)).Rotate
      d.rotation).Translate d.position.x d.position.y

open Classical in
instance : Decidable (Vector.IsZero v) := propDecidable _

/-- The matrix built by Matrix() from the node-local fields
(transform.go lines 232-239): the first four steps are literally the
same Scale/Translate/Rotate/Translate sequence as in
MatrixForParenting, here shared as parentingMatrix, followed by
Translate(-origin) when the origin is nonzero. -/
def TData.localMatrix (d : TData) : Matrix :=
  if d.origin.IsZero then d.parentingMatrix
  else d.parentingMatrix.Translate (-d.origin.x) (-d.origin.y)

/-- The cache refresh performed at the top of MatrixForParenting: when
parentDirty, rebuild parentMatrix, store its inverse in parentInverted,
and clear the flag. -/
def TData.refreshParent (d : TData) : TData :=
  if d.parentDirty then
    { d with parentMatrix := d.parentingMatrix,
             parentInverted := d.parentingMatrix.Invert,
             parentDirty := false }
  else d

/-- The cache refresh performed at the top of Matrix(): when dirty,
rebuild the cached world matrix and clear the flag. -/
def TData.refreshSelf (d : TData) : TData :=
  if d.dirty then { d with matrix := d.localMatrix, dirty := false } else d

/-- MatrixForParenting of transform.go: refresh the node-local caches,
then, when a parent exists, concat the cached matrix with the parent
chain matrix and compose the inverses in the opposite order.  Returns
the pair (forward, inverse) together with the updated tree (in Go the
cache updates happen in place through the parent pointers). -/
def Transform.MatrixForParenting : Transform → (Matrix × Matrix) × Transform
  | .root d =>
      ((d.refreshParent.parentMatrix, d.refreshParent.parentInverted),
       .root d.refreshParent)
  | .node d p =>
      let r := p.MatrixForParenting
      ((Matrix.Concat d.refreshParent.parentMatrix r.1.1,
        Matrix.Concat r.1.2 d.refreshParent.parentInverted),
       .node d.refreshParent r.2)

/-- Matrix() of transform.go: refresh the node-local world matrix, then
concat with the parent chain matrix when a parent exists. -/
def Transform.Matrix : Transform → Matrix × Transform
  | .root d => (d.refreshSelf.matrix, .root d.refreshSelf)
  | .node d p =>
      let r := p.MatrixForParenting
      (Matrix.Concat d.refreshSelf.matrix r.1.1, .node d.refreshSelf r.2)

/-- Position() of transform.go: the stored position for a root; for a
parented node, the stored position mapped through the parent chain
forward matrix. -/
def Transform.Position : Transform → Vector × Transform
  | .root d => (d.position, .root d)
  | .node d p =>
      let r := p.MatrixForParenting
      (d.position.Apply r.1.1, .node d r.2)

/-- SetPosition of transform.go: mark dirty; a root stores the argument
directly, a parented node stores the argument mapped through the parent
chain inverse matrix. -/
def Transform.SetPosition : Transform → Vector → Transform
  | .root d, v =>
      .root { d with dirty := true, parentDirty := true, position := v }
  | .node d p, v =>
      let r := p.MatrixForParenting
      .node { d with dirty := true, parentDirty := true,
                     position := v.Apply r.1.2 } r.2

/-- Rotation() of transform.go: stored rotation plus the parent world
rotation when a parent exists. -/
def Transform.Rotation : Transform → ℝ
  | .root d => d.rotation
  | .node d p => d.rotation + p.Rotation

/-- SetRotation of transform.go: mark dirty; a root stores the
argument; a parented node executes rotation -= parent.Rotation(),
which ignores the argument (the Go parameter is unused on that path). -/
def Transform.SetRotation : Transform → ℝ → Transform
  | .root d, r =>
      .root { d with dirty := true, parentDirty := true, rotation := r }
  | .node d p, _ =>
      .node { d with dirty := true, parentDirty := true,
                     rotation := d.rotation - p.Rotation } p

/-- Scale() of transform.go: returns the stored scale field. -/
def Transform.Scale (t : Transform) : Vector := t.data.scale

/-- SetScale of transform.go: mark dirty and store the argument. -/
def Transform.SetScale (t : Transform) (v : Vector) : Transform :=
  t.mapData fun d => { d with dirty := true, parentDirty := true, scale := v }

/-- Offset() of transform.go. -/
def Transform.Offset (t : Transform) : Vector := t.data.offset

/-- SetOffset of transform.go: mark dirty and store the argument. -/
def Transform.SetOffset (t : Transform) (v : Vector) : Transform :=
  t.mapData fun d => { d with dirty := true, parentDirty := true, offset := v }

/-- Origin() of transform.go. -/
def Transform.Origin (t : Transform) : Vector := t.data.origin

/-- SetOrigin of transform.go: mark dirty and store the argument. -/
def Transform.SetOrigin (t : Transform) (v : Vector) : Transform :=
  t.mapData fun d => { d with dirty := true, parentDirty := true, origin := v }

/-- IsDirty of transform.go: either dirty flag is set. -/
def Transform.IsDirty (t : Transform) : Bool :=
  t.data.dirty || t.data.parentDirty

/-- Connected of transform.go: a parent link is present. -/
def Transform.Connected : Transform → Bool
  | .root _ => false
  | .node _ _ => true

/-- GetParentTransform of transform.go. -/
def Transform.GetParentTransform : Transform → Option Transform
  | .root _ => none
  | .node _ p => some p

/-- Abs of transform.go: a root returns itself; a parented node builds
a fresh T() whose pose fields are this node's world values and whose
dirty flags are set. -/
def Transform.Abs (t : Transform) : Transform :=
  match t with
  | .root d => .root d
  | .node _ _ =>
      let r := t.Position
      .root { T.data with position := r.1, rotation := t.Rotation,
                          origin := t.data.origin, scale := t.data.scale,
                          offset := t.data.offset,
                          dirty := true, parentDirty := true }

/-- Disconnect of transform.go: no-op for a root, otherwise replace
self by the absolute snapshot. -/
def Transform.Disconnect (t : Transform) : Transform :=
  match t with
  | .root _ => t
  | .node _ _ => t.Abs

/-- Connect of transform.go: a nil parent returns immediately; else the
parent link is reassigned first and then the four world setters are fed
the (now re-based) getters, threading the cache updates. -/
def Transform.Connect (t : Transform) (parent : Option Transform) : Transform :=
  match parent with
  | none => t
  | some q =>
      let t1 : Transform := .node t.data q
      let r := t1.Position
      let t2 := r.2.SetPosition r.1
      let t3 := t2.SetRotation t2.Rotation
      let t4 := t3.SetScale t3.Scale
      t4.SetOffset t4.Offset

/-- Replace of transform.go: feed the four setters with the other
transform's getter values, in source order. -/
def Transform.Replace (t other : Transform) : Transform :=
  (((t.SetPosition (other.Position).1).SetOffset other.Offset).SetRotation
      other.Rotation).SetOrigin other.Origin

/-- The parent chain matrix recomputed from the pose fields alone: the
denotation that MatrixForParenting returns when the caches are valid. -/
def Transform.pureParentChain : Transform → EbiMath.Matrix
  | .root d => d.parentingMatrix
  | .node d p => Matrix.Concat d.parentingMatrix p.pureParentChain

/-- The inverse parent chain matrix recomputed from the pose fields,
composed exactly as MatrixForParenting composes the cached inverses. -/
def Transform.pureParentChainInv : Transform → EbiMath.Matrix
  | .root d => d.parentingMatrix.Invert
  | .node d p => Matrix.Concat p.pureParentChainInv d.parentingMatrix.Invert

/-- The world position recomputed from the pose fields alone. -/
def Transform.purePos : Transform → Vector
  | .root d => d.position
  | .node d p => d.position.Apply p.pureParentChain

/-- The world matrix recomputed from the pose fields alone. -/
def Transform.pureMatrix : Transform → EbiMath.Matrix
  | .root d => d.localMatrix
  | .node d p => Matrix.Concat d.localMatrix p.pureParentChain

/-- Cache validity of the node-local fields: a cleared dirty flag means
the corresponding cached matrix matches the pose fields.  Every state
reachable from the constructor through the API satisfies this. -/
def TData.coherent (d : TData) : Prop :=
  (d.dirty = false → d.matrix = d.localMatrix) ∧
  (d.parentDirty = false →
    d.parentMatrix = d.parentingMatrix ∧
    d.parentInverted = d.parentingMatrix.Invert)

/-- Cache validity of every node of the chain. -/
def Transform.coherent : Transform → Prop
  | .root d => d.coherent
  | .node d p => d.coherent ∧ p.coherent

/-- Invertibility of every parenting matrix of the chain (ruled out
only by a zero scale component, which GeoM Invert rejects). -/
def Transform.invertibleChain : Transform → Prop
  | .root d => d.parentingMatrix.det ≠ 0
  | .node d p => d.parentingMatrix.det ≠ 0 ∧ p.invertibleChain

/-- The tree after MatrixForParenting has refreshed every cache on the
chain. -/
def Transform.refreshChainP : Transform → Transform
  | .root d => .root d.refreshParent
  | .node d p => .node d.refreshParent p.refreshChainP

theorem TData.refreshParent_position (d : TData) :
    d.refreshParent.position = d.position := by
  unfold TData.refreshParent; split <;> rfl

theorem TData.refreshParent_scale (d : TData) :
    d.refreshParent.scale = d.scale := by
  unfold TData.refreshParent; split <;> rfl

theorem TData.refreshParent_offset (d : TData) :
    d.refreshParent.offset = d.offset := by
  unfold TData.refreshParent; split <;> rfl

theorem TData.refreshParent_origin (d : TData) :
    d.refreshParent.origin = d.origin := by
  unfold TData.refreshParent; split <;> rfl

theorem TData.refreshParent_rotation (d : TData) :
    d.refreshParent.rotation = d.rotation := by
  unfold TData.refreshParent; split <;> rfl

theorem TData.refreshParent_parentingMatrix (d : TData) :
    d.refreshParent.parentingMatrix = d.parentingMatrix := by
  unfold TData.refreshParent; split <;> rfl

theorem TData.refreshParent_localMatrix (d : TData) :
    d.refreshParent.localMatrix = d.localMatrix := by
  unfold TData.refreshParent; split <;> rfl

theorem TData.refreshParent_caches (d : TData) (h : d.coherent) :
    d.refreshParent.parentMatrix = d.parentingMatrix ∧
    d.refreshParent.parentInverted = d.parentingMatrix.Invert := by
  unfold TData.refreshParent
  cases hp : d.parentDirty with
  | true => simp
  | false => simpa using h.2 hp

theorem TData.refreshParent_coherent (d : TData) (h : d.coherent) :
    d.refreshParent.coherent := by
  unfold TData.refreshParent
  cases hp : d.parentDirty with
  | true =>
      refine ⟨fun hd => ?_, fun _ => ⟨rfl, rfl⟩⟩
      simpa [TData.localMatrix, TData.parentingMatrix] using h.1 (by simpa using hd)
  | false => simpa using h

theorem TData.refreshSelf_matrix (d : TData) (h : d.coherent) :
    d.refreshSelf.matrix = d.localMatrix := by
  unfold TData.refreshSelf
  cases hd : d.dirty with
  | true => simp
  | false => simpa using h.1 hd

theorem TData.refreshSelf_coherent (d : TData) (h : d.coherent) :
    d.refreshSelf.coherent := by
  unfold TData.refreshSelf
  cases hd : d.dirty with
  | true =>
      refine ⟨fun _ => rfl, fun hp => ?_⟩
      simpa [TData.parentingMatrix] using h.2 (by simpa using hp)
  | false => simpa using h

theorem Transform.mfp_snd (t : Transform) :
    (t.MatrixForParenting).2 = t.refreshChainP := by
  induction t with
  | root d => rfl
  | node d p ih =>
      simp [Transform.MatrixForParenting, Transform.refreshChainP, ih]

theorem Transform.mfp_fst (t : Transform) (h : t.coherent) :
    (t.MatrixForParenting).1.1 = t.pureParentChain ∧
    (t.MatrixForParenting).1.2 = t.pureParentChainInv := by
  induction t with
  | root d =>
      obtain ⟨hm, hi⟩ := TData.refreshParent_caches d h
      simp [Transform.MatrixForParenting, Transform.pureParentChain,
            Transform.pureParentChainInv, hm, hi]
  | node d p ih =>
      obtain ⟨hd, hp⟩ := h
      obtain ⟨h1, h2⟩ := ih hp
      obtain ⟨hm, hi⟩ := TData.refreshParent_caches d hd
      simp [Transform.MatrixForParenting, Transform.pureParentChain,
            Transform.pureParentChainInv, hm, hi, h1, h2]

theorem Transform.refreshChainP_coherent (t : Transform) (h : t.coherent) :
    t.refreshChainP.coherent := by
  induction t with
  | root d => exact TData.refreshParent_coherent d h
  | node d p ih =>
      exact ⟨TData.refreshParent_coherent d h.1, ih h.2⟩

theorem Transform.refreshChainP_pureParentChain (t : Transform) :
    t.refreshChainP.pureParentChain = t.pureParentChain := by
  induction t with
  | root d =>
      simp [Transform.refreshChainP, Transform.pureParentChain,
            TData.refreshParent_parentingMatrix]
  | node d p ih =>
      simp [Transform.refreshChainP, Transform.pureParentChain,
            TData.refreshParent_parentingMatrix, ih]

theorem Transform.refreshChainP_pureParentChainInv (t : Transform) :
    t.refreshChainP.pureParentChainInv = t.pureParentChainInv := by
  induction t with
  | root d =>
      simp [Transform.refreshChainP, Transform.pureParentChainInv,
            TData.refreshParent_parentingMatrix]
  | node d p ih =>
      simp [Transform.refreshChainP, Transform.pureParentChainInv,
            TData.refreshParent_parentingMatrix, ih]

theorem Transform.refreshChainP_Rotation (t : Transform) :
    t.refreshChainP.Rotation = t.Rotation := by
  induction t with
  | root d =>
      simp [Transform.refreshChainP, Transform.Rotation,
            TData.refreshParent_rotation]
  | node d p ih =>
      simp [Transform.refreshChainP, Transform.Rotation,
            TData.refreshParent_rotation, ih]

theorem Transform.refreshChainP_invertibleChain (t : Transform)
    (h : t.invertibleChain) : t.refreshChainP.invertibleChain := by
  induction t with
  | root d =>
      simpa [Transform.refreshChainP, Transform.invertibleChain,
             TData.refreshParent_parentingMatrix] using h
  | node d p ih =>
      exact ⟨by
        simpa [TData.refreshParent_parentingMatrix] using h.1, ih h.2⟩

theorem Transform.chain_roundtrip_fwd (t : Transform) (h : t.invertibleChain)
    (v : Vector) :
    (v.Apply t.pureParentChain).Apply t.pureParentChainInv = v := by
  induction t generalizing v with
  | root d =>
      exact Vector.apply_invert_right v d.parentingMatrix h
  | node d p ih =>
      obtain ⟨h1, h2⟩ := h
      simp only [Transform.pureParentChain, Transform.pureParentChainInv,
        Vector.apply_concat]
      rw [ih h2, Vector.apply_invert_right _ _ h1]

theorem Transform.chain_roundtrip_bwd (t : Transform) (h : t.invertibleChain)
    (v : Vector) :
    (v.Apply t.pureParentChainInv).Apply t.pureParentChain = v := by
  induction t generalizing v with
  | root d =>
      exact Vector.apply_invert_left v d.parentingMatrix h
  | node d p ih =>
      obtain ⟨h1, h2⟩ := h
      simp only [Transform.pureParentChain, Transform.pureParentChainInv,
        Vector.apply_concat]
      rw [Vector.apply_invert_left _ _ h1, ih h2]

theorem Transform.Position_fst (t : Transform) (h : t.coherent) :
    (t.Position).1 = t.purePos := by
  cases t with
  | root d => rfl
  | node d p =>
      simp [Transform.Position, Transform.purePos, (Transform.mfp_fst p h.2).1]

theorem Transform.Position_snd (t : Transform) :
    (t.Position).2 = match t with
      | .root d => .root d
      | .node d p => .node d p.refreshChainP := by
  cases t with
  | root d => rfl
  | node d p => simp [Transform.Position, Transform.mfp_snd p]

theorem Transform.Matrix_fst (t : Transform) (h : t.coherent) :
    (t.Matrix).1 = t.pureMatrix := by
  cases t with
  | root d =>
      simpa [Transform.Matrix, Transform.pureMatrix] using
        TData.refreshSelf_matrix d h
  | node d p =>
      simp [Transform.Matrix, Transform.pureMatrix,
        TData.refreshSelf_matrix d h.1, (Transform.mfp_fst p h.2).1]

theorem Transform.Matrix_snd (t : Transform) :
    (t.Matrix).2 = match t with
      | .root d => .root d.refreshSelf
      | .node d p => .node d.refreshSelf p.refreshChainP := by
  cases t with
  | root d => rfl
  | node d p => simp [Transform.Matrix, Transform.mfp_snd p]

/-- The constructor defaults with both dirty flags raised: the state
any setter leaves a fresh node in. -/
def dDirty : TData := { T.data with dirty := true, parentDirty := true }

theorem TData.coherent_of_dirty (d : TData) (h1 : d.dirty = true)
    (h2 : d.parentDirty = true) : d.coherent := by
  constructor <;> intro h
  · rw [h1] at h; cases h
  · rw [h2] at h; cases h

/-- C7: for a parentless Transform, Position() returns exactly the
stored position, Rotation() the stored rotation and Scale() the stored
scale, and this persists through the setters: after SetPosition,
SetRotation, SetScale on a root the getters return the stored values. -/
theorem C7_root_identity (d : TData) (pv sv : Vector) (rv : ℝ) :
    ((Transform.root d).Position).1 = d.position ∧
    (Transform.root d).Rotation = d.rotation ∧
    (Transform.root d).Scale = d.scale ∧
    ((((Transform.root d).SetPosition pv).SetRotation rv).SetScale
        sv).Position.1 = pv ∧
    ((((Transform.root d).SetPosition pv).SetRotation rv).SetScale
        sv).Rotation = rv ∧
    ((((Transform.root d).SetPosition pv).SetRotation rv).SetScale
        sv).Scale = sv := by
  refine ⟨rfl, rfl, rfl, ?_, ?_, ?_⟩ <;>
    simp [Transform.SetPosition, Transform.SetRotation, Transform.SetScale,
      Transform.Position, Transform.Rotation, Transform.Scale,
      Transform.mapData, Transform.data]

/-- C10: Connect with a nil parent returns immediately and leaves the
entire Transform state (parent link, pose fields, dirty flags and
cached matrices) unchanged. -/
theorem C10_connect_nil_noop (t : Transform) : t.Connect none = t := rfl

/-- C8 counterexample: the constructor T leaves both dirty flags at
their Go zero value false, so IsDirty() is false immediately after
construction, contradicting the claim that the fresh Transform is
marked dirty. -/
theorem C8_counterexample : ¬ (T.IsDirty = true) := by
  simp [T, Transform.IsDirty, Transform.data]

theorem Matrix.idM_invert : Matrix.idM.Invert = Matrix.idM := by
  ext <;> simp [Matrix.Invert, Matrix.idM, Matrix.det]

theorem T_parentingMatrix : TData.parentingMatrix T.data = Matrix.idM := by
  ext <;> simp [T, Transform.data, TData.parentingMatrix, Matrix.idM,
    Matrix.Scale, Matrix.Translate, Matrix.Rotate, V2,
    Real.cos_zero, Real.sin_zero]

theorem T_coherent : T.coherent := by
  refine ⟨fun _ => ?_, fun _ => ⟨?_, ?_⟩⟩
  · show Matrix.idM = TData.localMatrix T.data
    rw [TData.localMatrix, if_pos (by exact ⟨rfl, rfl⟩), T_parentingMatrix]
  · show Matrix.idM = TData.parentingMatrix T.data
    rw [T_parentingMatrix]
  · show Matrix.idM = (TData.parentingMatrix T.data).Invert
    rw [T_parentingMatrix, Matrix.idM_invert]

/-- C8 amended: the constructor T returns a Transform with identity
pose (zero position, rotation, offset and origin, unit scale), no
parent, and IsDirty() false; its zero-value cached matrices equal the
identity matrix, which coincides with the matrices of the identity
pose, so the caches are valid despite the cleared flags. -/
theorem C8_constructor_amended :
    T.data.position = V2 0 ∧ T.data.rotation = 0 ∧
    T.data.offset = V2 0 ∧ T.data.origin = V2 0 ∧
    T.data.scale = V2 1 ∧ T.Connected = false ∧
    T.IsDirty = false ∧ T.coherent :=
  ⟨rfl, rfl, rfl, rfl, rfl, rfl, rfl, T_coherent⟩

/-- The failing input of C2: a child with stored local rotation 0 whose
parent has world rotation 1. -/
def tC2 : Transform :=
  .node { dDirty with rotation := 0 } (.root { dDirty with rotation := 1 })

/-- C2: the claim says SetRotation(5) on this child stores the local
rotation 5 - 1 = 4 and makes Rotation() return 5.  The code instead
executes rotation -= parent.Rotation(), ignoring the argument: the
stored rotation becomes 0 - 1 = -1 and Rotation() returns 0. -/
theorem C2_setrotation_ignores_argument :
    ((tC2.SetRotation 5).data).rotation = -1 ∧
    (tC2.SetRotation 5).Rotation = 0 ∧
    ((-1 : ℝ) ≠ 5 - 1) ∧ ((0 : ℝ) ≠ 5) := by
  refine ⟨?_, ?_, by norm_num, by norm_num⟩ <;>
    simp [tC2, Transform.SetRotation, Transform.Rotation, Transform.data,
      dDirty, T]

/-- The parent of the C6 counterexample: a root with scale (2,2). -/
def pC6 : Transform := .root { dDirty with scale := V 2 2 }

/-- The child of the C6 counterexample: stored local scale (3,3). -/
def tC6 : Transform := .node { dDirty with scale := V 3 3 } pC6

/-- C6 counterexample: the claim says Scale() of the child returns the
componentwise product (3,3)*(2,2) = (6,6) of local and parent world
scale; the code returns the stored local scale (3,3) unchanged. -/
theorem C6_counterexample :
    tC6.Scale = V 3 3 ∧ pC6.Scale = V 2 2 ∧
    tC6.Scale ≠ (V 3 3).Mul (V 2 2) := by
  refine ⟨rfl, rfl, ?_⟩
  intro h
  have hx : (3 : ℝ) = 6 := by
    have := congrArg Vector.x h
    simpa [Transform.Scale, tC6, pC6, dDirty, T, Transform.data, V,
      Vector.Mul] using this
  norm_num at hx

/-- C6 amended: Scale() of a parented Transform returns the stored
local scale with no composition with the parent, and after SetScale(v)
it returns v, independently of the parent's scale. -/
theorem C6_scale_is_local (d : TData) (p : Transform) (v : Vector) :
    (Transform.node d p).Scale = d.scale ∧
    ((Transform.node d p).SetScale v).Scale = v := by
  constructor
  · rfl
  · simp [Transform.SetScale, Transform.Scale, Transform.mapData,
      Transform.data]

theorem TData.apply_zero_parentingMatrix (d : TData) (hx : d.offset.x = 0)
    (hy : d.offset.y = 0) :
    (V 0 0).Apply d.parentingMatrix = d.position := by
  ext <;> simp [TData.parentingMatrix, Matrix.Scale, Matrix.Translate,
    Matrix.Rotate, Matrix.idM, Vector.Apply, V, hx, hy]

theorem TData.localMatrix_of_origin_zero (d : TData) (h : d.origin.IsZero) :
    d.localMatrix = d.parentingMatrix := by
  rw [TData.localMatrix, if_pos h]

/-- The C3 counterexample input: a parentless Transform with offset
(1,0), zero position, origin and rotation, unit scale, dirty flags
raised. -/
def tC3 : Transform := .root { dDirty with offset := V 1 0 }

/-- C3 counterexample: with a nonzero offset the composed world matrix
maps the zero vector to (-1,0) (the pivot shift survives in the
translation column) while Position() returns the stored (0,0), so the
claimed equality fails. -/
theorem C3_counterexample :
    (tC3.Position).1 = V 0 0 ∧
    (V 0 0).Apply (tC3.Matrix).1 = V (-1) 0 ∧
    (tC3.Position).1 ≠ (V 0 0).Apply (tC3.Matrix).1 := by
  have h2 : (V 0 0).Apply (tC3.Matrix).1 = V (-1) 0 := by
    ext <;>
      simp [tC3, dDirty, T, Transform.Matrix, Transform.data,
        TData.refreshSelf, TData.localMatrix, TData.parentingMatrix,
        Vector.IsZero, V, V2, Matrix.Scale, Matrix.Translate, Matrix.Rotate,
        Matrix.idM, Vector.Apply, Real.cos_zero, Real.sin_zero]
  refine ⟨rfl, h2, ?_⟩
  rw [h2]
  intro h
  have hx : (0 : ℝ) = -1 := congrArg Vector.x h
  norm_num at hx

/-- C3 amended: Position() equals the composed world matrix applied to
the zero vector for every coherent Transform at any hierarchy depth
whose own offset and origin are zero; a nonzero offset or origin of the
node itself shifts the matrix image away from Position(). -/
theorem C3_position_matrix_consistency (t : Transform) (h : t.coherent)
    (hoff : t.data.offset = V 0 0) (horig : t.data.origin = V 0 0) :
    (t.Position).1 = (V 0 0).Apply (t.Matrix).1 := by
  have hx : t.data.offset.x = 0 := by rw [hoff]; rfl
  have hy : t.data.offset.y = 0 := by rw [hoff]; rfl
  have hz : (t.data).origin.IsZero := by
    rw [horig]; exact ⟨rfl, rfl⟩
  rw [Transform.Position_fst t h, Transform.Matrix_fst t h]
  cases t with
  | root d =>
      simp only [Transform.purePos, Transform.pureMatrix]
      rw [TData.localMatrix_of_origin_zero d hz]
      exact (TData.apply_zero_parentingMatrix d hx hy).symm
  | node d p =>
      simp only [Transform.purePos, Transform.pureMatrix]
      rw [TData.localMatrix_of_origin_zero d hz, Vector.apply_concat,
        TData.apply_zero_parentingMatrix d hx hy]

/-- C3 witness: the amended theorem instantiated at the freshly
constructed Transform. -/
theorem C3_position_matrix_consistency_witness :
    (T.coherent ∧ T.data.offset = V 0 0 ∧ T.data.origin = V 0 0) ∧
    (T.Position).1 = (V 0 0).Apply (T.Matrix).1 :=
  ⟨⟨T_coherent, rfl, rfl⟩,
   C3_position_matrix_consistency T T_coherent rfl rfl⟩

theorem TData.refreshSelf_position (d : TData) :
    d.refreshSelf.position = d.position := by
  unfold TData.refreshSelf; split <;> rfl

theorem TData.refreshSelf_scale (d : TData) :
    d.refreshSelf.scale = d.scale := by
  unfold TData.refreshSelf; split <;> rfl

theorem TData.refreshSelf_offset (d : TData) :
    d.refreshSelf.offset = d.offset := by
  unfold TData.refreshSelf; split <;> rfl

theorem TData.refreshSelf_origin (d : TData) :
    d.refreshSelf.origin = d.origin := by
  unfold TData.refreshSelf; split <;> rfl

theorem TData.refreshSelf_rotation (d : TData) :
    d.refreshSelf.rotation = d.rotation := by
  unfold TData.refreshSelf; split <;> rfl

theorem TData.refreshSelf_parentingMatrix (d : TData) :
    d.refreshSelf.parentingMatrix = d.parentingMatrix := by
  unfold TData.refreshSelf; split <;> rfl

theorem TData.refreshSelf_localMatrix (d : TData) :
    d.refreshSelf.localMatrix = d.localMatrix := by
  unfold TData.refreshSelf; split <;> rfl

theorem Transform.Matrix_snd_node (d : TData) (p : Transform) :
    ((Transform.node d p).Matrix).2 = .node d.refreshSelf p.refreshChainP := by
  simp [Transform.Matrix, Transform.mfp_snd]

theorem Transform.Position_snd_node (d : TData) (p : Transform) :
    ((Transform.node d p).Position).2 = .node d p.refreshChainP := by
  simp [Transform.Position, Transform.mfp_snd]

theorem Transform.refreshChainP_data_position (t : Transform) :
    t.refreshChainP.data.position = t.data.position := by
  cases t <;>
    simp [Transform.refreshChainP, Transform.data, TData.refreshParent_position]

/-- Mutation of the topmost ancestor of a chain, as performed in Go by
calling SetPosition on the root object that the chain points to: the
root stores the new position and raises its own dirty flags. -/
def Transform.setRootPosition : Transform → Vector → Transform
  | .root d, v => (Transform.root d).SetPosition v
  | .node d p, v => .node d (p.setRootPosition v)

theorem Transform.setRootPosition_coherent (t : Transform) (v : Vector)
    (h : t.coherent) : (t.setRootPosition v).coherent := by
  induction t with
  | root d =>
      exact TData.coherent_of_dirty _ rfl rfl
  | node d p ih =>
      exact ⟨h.1, ih h.2⟩

theorem TData.parentingMatrix_congr (d e : TData) (hp : d.position = e.position)
    (hs : d.scale = e.scale) (ho : d.offset = e.offset)
    (hr : d.rotation = e.rotation) :
    d.parentingMatrix = e.parentingMatrix := by
  unfold TData.parentingMatrix; rw [hp, hs, ho, hr]

/-- C4: in a three-level chain child -> parent -> ancestor whose caches
have just been read (child Matrix() and Position() called, leaving the
read caches clean), storing a new ancestor position via SetPosition
makes the child's next Matrix() and Position() return exactly the
values recomputed from the ancestor's new pose: the results below are
the from-scratch compositions in which the ancestor's parenting matrix
is rebuilt from the new position q, so no stale cache is served. -/
theorem C4_dirty_propagation (cd pd ad : TData) (q : Vector)
    (h : (Transform.node cd (.node pd (.root ad))).coherent) :
    (((((((Transform.node cd (.node pd (.root ad))).Matrix).2).Position).2).setRootPosition
        q).Matrix).1 =
      Matrix.Concat cd.localMatrix
        (Matrix.Concat pd.parentingMatrix
          (TData.parentingMatrix { ad with position := q })) ∧
    (((((((Transform.node cd (.node pd (.root ad))).Matrix).2).Position).2).setRootPosition
        q).Position).1 =
      cd.position.Apply
        (Matrix.Concat pd.parentingMatrix
          (TData.parentingMatrix { ad with position := q })) := by
  obtain ⟨h1, h2, h3⟩ := h
  have hshape :
      ((((Transform.node cd (.node pd (.root ad))).Matrix).2).Position).2 =
        .node cd.refreshSelf
          (.node pd.refreshParent.refreshParent
            (.root ad.refreshParent.refreshParent)) := by
    rw [Transform.Matrix_snd_node]
    simp only [Transform.refreshChainP]
    rw [Transform.Position_snd_node]
    simp only [Transform.refreshChainP]
  rw [hshape]
  simp only [Transform.setRootPosition, Transform.SetPosition]
  have hcoh :
      (Transform.node cd.refreshSelf
        (.node pd.refreshParent.refreshParent
          (.root { ad.refreshParent.refreshParent with
                     dirty := true, parentDirty := true,
                     position := q }))).coherent :=
    ⟨TData.refreshSelf_coherent cd h1,
     TData.refreshParent_coherent _ (TData.refreshParent_coherent _ h2),
     TData.coherent_of_dirty _ rfl rfl⟩
  have had :
      TData.parentingMatrix
          { ad.refreshParent.refreshParent with
              dirty := true, parentDirty := true, position := q } =
        TData.parentingMatrix { ad with position := q } :=
    TData.parentingMatrix_congr _ _ rfl
      (by simp [TData.refreshParent_scale])
      (by simp [TData.refreshParent_offset])
      (by simp [TData.refreshParent_rotation])
  constructor
  · rw [Transform.Matrix_fst _ hcoh]
    simp only [Transform.pureMatrix, Transform.pureParentChain]
    rw [TData.refreshSelf_localMatrix,
      TData.refreshParent_parentingMatrix, TData.refreshParent_parentingMatrix,
      had]
  · rw [Transform.Position_fst _ hcoh]
    simp only [Transform.purePos, Transform.pureParentChain]
    rw [TData.refreshSelf_position,
      TData.refreshParent_parentingMatrix, TData.refreshParent_parentingMatrix,
      had]

/-- C4 witness: the theorem instantiated at the all-default dirty
chain with new ancestor position (5,7). -/
theorem C4_dirty_propagation_witness :
    (Transform.node dDirty (.node dDirty (.root dDirty))).coherent ∧
    (((((((Transform.node dDirty (.node dDirty (.root dDirty))).Matrix).2).Position).2).setRootPosition
        (V 5 7)).Matrix).1 =
      Matrix.Concat dDirty.localMatrix
        (Matrix.Concat dDirty.parentingMatrix
          (TData.parentingMatrix { dDirty with position := V 5 7 })) ∧
    (((((((Transform.node dDirty (.node dDirty (.root dDirty))).Matrix).2).Position).2).setRootPosition
        (V 5 7)).Position).1 =
      dDirty.position.Apply
        (Matrix.Concat dDirty.parentingMatrix
          (TData.parentingMatrix { dDirty with position := V 5 7 })) := by
  have hc : (Transform.node dDirty (.node dDirty (.root dDirty))).coherent :=
    ⟨TData.coherent_of_dirty _ rfl rfl,
     TData.coherent_of_dirty _ rfl rfl,
     TData.coherent_of_dirty _ rfl rfl⟩
  exact ⟨hc, C4_dirty_propagation dDirty dDirty dDirty (V 5 7) hc⟩

/-- Normal form of Connect to a coherent parent with an invertible
chain: because the parent link is reassigned before the pose is
captured, the getter/setter dance restores the stored local position
(forward map then inverse map), subtracts the parent's world rotation
from the stored rotation, and leaves scale and offset untouched; only
the parent's caches get refreshed (twice: once by Position, once by
SetPosition). -/
theorem Transform.connect_eq (t q : Transform) (hq : q.coherent)
    (hinv : q.invertibleChain) :
    t.Connect (some q) =
      .node { t.data with
              dirty := true, parentDirty := true,
              rotation := t.data.rotation - q.Rotation }
        q.refreshChainP.refreshChainP := by
  have h1 : (q.MatrixForParenting).1.1 = q.pureParentChain :=
    (Transform.mfp_fst q hq).1
  have hrc : q.refreshChainP.coherent := Transform.refreshChainP_coherent q hq
  have h2 : ((q.refreshChainP).MatrixForParenting).1.2 = q.pureParentChainInv := by
    rw [(Transform.mfp_fst _ hrc).2, Transform.refreshChainP_pureParentChainInv]
  have h4 : q.refreshChainP.refreshChainP.Rotation = q.Rotation := by
    rw [Transform.refreshChainP_Rotation, Transform.refreshChainP_Rotation]
  have hrt : ∀ v : Vector,
      (v.Apply q.pureParentChain).Apply q.pureParentChainInv = v :=
    Transform.chain_roundtrip_fwd q hinv
  simp only [Transform.Connect, Transform.Position, Transform.SetPosition,
    Transform.SetRotation, Transform.SetScale, Transform.SetOffset,
    Transform.mapData, Transform.data, Transform.Scale, Transform.Offset,
    Transform.Rotation, Transform.mfp_snd, h1, h2, h4, hrt]

/-- A parent at world position (1,0) with otherwise default pose. -/
def pC1 : Transform := .root { dDirty with position := V 1 0 }

theorem pC1_coherent : pC1.coherent := TData.coherent_of_dirty _ rfl rfl

theorem pC1_invertible : pC1.invertibleChain := by
  show ({ dDirty with position := V 1 0 } : TData).parentingMatrix.det ≠ 0
  simp [pC1, dDirty, T, Transform.data, TData.parentingMatrix, Matrix.det,
    Matrix.Scale, Matrix.Translate, Matrix.Rotate, Matrix.idM, V, V2,
    Real.cos_zero, Real.sin_zero]

theorem pC1_chain_eval : (V 0 0).Apply pC1.pureParentChain = V 1 0 := by
  ext <;>
    simp [pC1, dDirty, T, Transform.pureParentChain, Transform.data,
      TData.parentingMatrix, Matrix.Scale, Matrix.Translate, Matrix.Rotate,
      Matrix.idM, Vector.Apply, V, V2, Real.cos_zero, Real.sin_zero]

theorem connect_T_pC1_position :
    ((T.Connect (some pC1)).Position).1 = V 1 0 := by
  rw [Transform.connect_eq T pC1 pC1_coherent pC1_invertible]
  have hc2 : (pC1.refreshChainP.refreshChainP).coherent :=
    Transform.refreshChainP_coherent _
      (Transform.refreshChainP_coherent _ pC1_coherent)
  have hfull : (Transform.node
      { T.data with dirty := true, parentDirty := true,
                    rotation := T.data.rotation - pC1.Rotation }
      pC1.refreshChainP.refreshChainP).coherent :=
    ⟨TData.coherent_of_dirty _ rfl rfl, hc2⟩
  rw [Transform.Position_fst _ hfull]
  simp only [Transform.purePos, Transform.refreshChainP_pureParentChain]
  exact pC1_chain_eval

/-- C1 counterexample: a Transform at world position (0,0) connected to
a parent at world position (1,0) afterwards reports world position
(1,0): Connect reassigns the parent before capturing the pose, so the
stored local position is preserved instead of the world position, and
the change exceeds the 1e-9 tolerance. -/
theorem C1_counterexample :
    (T.Position).1 = V 0 0 ∧
    ((T.Connect (some pC1)).Position).1 = V 1 0 ∧
    ¬ (|(1 : ℝ) - 0| ≤ 1e-9) := by
  exact ⟨rfl, connect_T_pC1_position, by norm_num⟩

/-- C1 amended: for a parent with coherent caches and invertible
parenting chain, t.Connect(parent) preserves the stored local pose
rather than the world pose: afterwards Position() returns the parent
chain matrix applied to t's previous stored position, Rotation()
returns t's previous stored (local) rotation, and Scale() is unchanged;
the previous world pose is reproduced only when those coincide (e.g.
when the parent chain is the identity and t was parentless). -/
theorem C1_connect_world_pose (t q : Transform) (hq : q.coherent)
    (hinv : q.invertibleChain) :
    ((t.Connect (some q)).Position).1 =
      (t.data.position).Apply q.pureParentChain ∧
    (t.Connect (some q)).Rotation = t.data.rotation ∧
    (t.Connect (some q)).Scale = t.data.scale := by
  rw [Transform.connect_eq t q hq hinv]
  have hc2 : (q.refreshChainP.refreshChainP).coherent :=
    Transform.refreshChainP_coherent _ (Transform.refreshChainP_coherent _ hq)
  have hfull : (Transform.node
      { t.data with dirty := true, parentDirty := true,
                    rotation := t.data.rotation - q.Rotation }
      q.refreshChainP.refreshChainP).coherent :=
    ⟨TData.coherent_of_dirty _ rfl rfl, hc2⟩
  refine ⟨?_, ?_, rfl⟩
  · rw [Transform.Position_fst _ hfull]
    simp only [Transform.purePos, Transform.refreshChainP_pureParentChain]
  · simp only [Transform.Rotation, Transform.refreshChainP_Rotation]
    ring

/-- C1 witness: the amended theorem instantiated at the default
Transform and the concrete parent at (1,0). -/
theorem C1_connect_world_pose_witness :
    (pC1.coherent ∧ pC1.invertibleChain) ∧
    (((T.Connect (some pC1)).Position).1 =
        (T.data.position).Apply pC1.pureParentChain ∧
     (T.Connect (some pC1)).Rotation = T.data.rotation ∧
     (T.Connect (some pC1)).Scale = T.data.scale) :=
  ⟨⟨pC1_coherent, pC1_invertible⟩,
   C1_connect_world_pose T pC1 pC1_coherent pC1_invertible⟩

/-- Disconnect on a parented node snapshots the world pose it currently
reports and stores it as a root, so the pose read back after Disconnect
equals the pose read just before it, unconditionally. -/
theorem Transform.disconnect_preserves (d : TData) (p : Transform) :
    ((Transform.node d p).Disconnect).Connected = false ∧
    (((Transform.node d p).Disconnect).Position).1 =
      ((Transform.node d p).Position).1 ∧
    ((Transform.node d p).Disconnect).Rotation =
      (Transform.node d p).Rotation ∧
    ((Transform.node d p).Disconnect).Scale = (Transform.node d p).Scale := by
  refine ⟨rfl, ?_, rfl, rfl⟩
  simp [Transform.Disconnect, Transform.Abs, Transform.Position,
    Transform.data]

/-- C5 counterexample: after T.Connect(pC1); T.Disconnect() the node is
indeed disconnected, but its world position is (1,0) instead of the
original (0,0) — Connect already moved the world pose and Disconnect
faithfully preserves the moved pose. -/
theorem C5_counterexample :
    (T.Position).1 = V 0 0 ∧
    ((T.Connect (some pC1)).Disconnect).Connected = false ∧
    (((T.Connect (some pC1)).Disconnect).Position).1 = V 1 0 ∧
    ¬ (|(1 : ℝ) - 0| ≤ 1e-9) := by
  refine ⟨rfl, ?_, ?_, by norm_num⟩
  · rw [Transform.connect_eq T pC1 pC1_coherent pC1_invertible]; rfl
  · rw [Transform.connect_eq T pC1 pC1_coherent pC1_invertible]
    rw [← Transform.connect_eq T pC1 pC1_coherent pC1_invertible]
    have h := (Transform.disconnect_preserves
      { T.data with dirty := true, parentDirty := true,
                    rotation := T.data.rotation - pC1.Rotation }
      pC1.refreshChainP.refreshChainP).2.1
    rw [Transform.connect_eq T pC1 pC1_coherent pC1_invertible, h,
      ← Transform.connect_eq T pC1 pC1_coherent pC1_invertible]
    exact connect_T_pC1_position

/-- C5 amended: t.Connect(parent); t.Disconnect() leaves Connected()
false and preserves the world pose held after Connect (Disconnect alone
is pose preserving), but relative to before the sequence the world
position has become the parent chain matrix applied to t's previous
stored position, the world rotation t's previous stored rotation, and
the scale is unchanged — the original world pose is not restored in
general. -/
theorem C5_connect_disconnect (t q : Transform) (hq : q.coherent)
    (hinv : q.invertibleChain) :
    ((t.Connect (some q)).Disconnect).Connected = false ∧
    (((t.Connect (some q)).Disconnect).Position).1 =
      ((t.Connect (some q)).Position).1 ∧
    (((t.Connect (some q)).Disconnect).Position).1 =
      (t.data.position).Apply q.pureParentChain ∧
    ((t.Connect (some q)).Disconnect).Rotation = t.data.rotation ∧
    ((t.Connect (some q)).Disconnect).Scale = t.data.scale := by
  have hc2 : (q.refreshChainP.refreshChainP).coherent :=
    Transform.refreshChainP_coherent _ (Transform.refreshChainP_coherent _ hq)
  have hpos : ((t.Connect (some q)).Position).1 =
      (t.data.position).Apply q.pureParentChain := by
    have hfull : (Transform.node
        { t.data with dirty := true, parentDirty := true,
                      rotation := t.data.rotation - q.Rotation }
        q.refreshChainP.refreshChainP).coherent :=
      ⟨TData.coherent_of_dirty _ rfl rfl, hc2⟩
    rw [Transform.connect_eq t q hq hinv]
    rw [Transform.Position_fst _ hfull]
    simp only [Transform.purePos, Transform.refreshChainP_pureParentChain]
  have hrot : ((t.Connect (some q)).Disconnect).Rotation = t.data.rotation := by
    rw [Transform.connect_eq t q hq hinv]
    have h := (Transform.disconnect_preserves
      { t.data with dirty := true, parentDirty := true,
                    rotation := t.data.rotation - q.Rotation }
      q.refreshChainP.refreshChainP).2.2.1
    rw [h]
    simp only [Transform.Rotation, Transform.refreshChainP_Rotation]
    ring
  have hdp := Transform.disconnect_preserves
    { t.data with dirty := true, parentDirty := true,
                  rotation := t.data.rotation - q.Rotation }
    q.refreshChainP.refreshChainP
  constructor
  · rw [Transform.connect_eq t q hq hinv]; exact hdp.1
  constructor
  · rw [Transform.connect_eq t q hq hinv, hdp.2.1,
      ← Transform.connect_eq t q hq hinv]
  constructor
  · rw [Transform.connect_eq t q hq hinv, hdp.2.1,
      ← Transform.connect_eq t q hq hinv]
    exact hpos
  constructor
  · exact hrot
  · rw [Transform.connect_eq t q hq hinv]
    exact hdp.2.2.2

/-- C5 witness: the amended theorem instantiated at the default
Transform and the concrete parent at (1,0). -/
theorem C5_connect_disconnect_witness :
    (pC1.coherent ∧ pC1.invertibleChain) ∧
    (((T.Connect (some pC1)).Disconnect).Connected = false ∧
     (((T.Connect (some pC1)).Disconnect).Position).1 =
       ((T.Connect (some pC1)).Position).1 ∧
     (((T.Connect (some pC1)).Disconnect).Position).1 =
       (T.data.position).Apply pC1.pureParentChain ∧
     ((T.Connect (some pC1)).Disconnect).Rotation = T.data.rotation ∧
     ((T.Connect (some pC1)).Disconnect).Scale = T.data.scale) :=
  ⟨⟨pC1_coherent, pC1_invertible⟩,
   C5_connect_disconnect T pC1 pC1_coherent pC1_invertible⟩

/-- Replace on a parented node leaves the world rotation at the node's
own previous stored rotation: SetRotation subtracts the parent's world
rotation from the stored rotation (ignoring the value passed in), and
the getter adds it back. -/
theorem Transform.replace_node_rotation (d : TData) (p o : Transform) :
    ((Transform.node d p).Replace o).Rotation = d.rotation := by
  simp only [Transform.Replace, Transform.SetPosition, Transform.SetOffset,
    Transform.SetRotation, Transform.SetOrigin, Transform.mapData,
    Transform.Rotation, Transform.data, Transform.mfp_snd]
  ring

/-- The parented target of the C9 counterexample: stored local rotation
0 under a parent with world rotation 1. -/
def tC9 : Transform :=
  .node { dDirty with rotation := 0 } (.root { dDirty with rotation := 1 })

/-- The source transform of the C9 counterexample: world rotation 5. -/
def oC9 : Transform := .root { dDirty with rotation := 5 }

/-- C9 counterexample: Replace feeds SetRotation the other transform's
world rotation 5, but for a parented target the setter ignores its
argument, so the target's world rotation afterwards is its previous
local rotation 0 rather than 5. -/
theorem C9_counterexample :
    (tC9.Replace oC9).Rotation = 0 ∧ oC9.Rotation = 5 ∧ ((0 : ℝ) ≠ 5) := by
  refine ⟨?_, rfl, by norm_num⟩
  simp only [tC9]
  rw [Transform.replace_node_rotation]

/-- C9 amended: Replace copies the other transform's world position
(exactly, when the target's parent chain is coherent and invertible),
offset and origin through the setters, and leaves the parent link and
the stored scale unchanged (only the parent's caches are refreshed);
the world rotation, however, is copied only for a parentless target —
a parented target keeps its own previous stored rotation as its world
rotation, because SetRotation ignores its argument on that path. -/
theorem C9_replace_pose (d e : TData) (p o : Transform) (hp : p.coherent)
    (hinv : p.invertibleChain) :
    (((Transform.node d p).Replace o).Position).1 = (o.Position).1 ∧
    ((Transform.node d p).Replace o).Offset = o.Offset ∧
    ((Transform.node d p).Replace o).Origin = o.Origin ∧
    ((Transform.node d p).Replace o).Scale = d.scale ∧
    ((Transform.node d p).Replace o).GetParentTransform =
      some p.refreshChainP ∧
    ((Transform.node d p).Replace o).Rotation = d.rotation ∧
    (((Transform.root e).Replace o).Position).1 = (o.Position).1 ∧
    ((Transform.root e).Replace o).Rotation = o.Rotation ∧
    ((Transform.root e).Replace o).Scale = e.scale ∧
    ((Transform.root e).Replace o).Connected = false := by
  have hrc : p.refreshChainP.coherent := Transform.refreshChainP_coherent p hp
  have h1 : (p.MatrixForParenting).1.2 = p.pureParentChainInv :=
    (Transform.mfp_fst p hp).2
  have h2 : ((p.refreshChainP).MatrixForParenting).1.1 = p.pureParentChain := by
    rw [(Transform.mfp_fst _ hrc).1, Transform.refreshChainP_pureParentChain]
  have hbt : ∀ v : Vector,
      (v.Apply p.pureParentChainInv).Apply p.pureParentChain = v :=
    Transform.chain_roundtrip_bwd p hinv
  refine ⟨?_, rfl, rfl, rfl, ?_, Transform.replace_node_rotation d p o,
    rfl, rfl, rfl, rfl⟩
  · simp only [Transform.Replace, Transform.SetPosition, Transform.SetOffset,
      Transform.SetRotation, Transform.SetOrigin, Transform.mapData,
      Transform.Position, Transform.data, Transform.mfp_snd, h1, h2, hbt]
  · simp only [Transform.Replace, Transform.SetPosition, Transform.SetOffset,
      Transform.SetRotation, Transform.SetOrigin, Transform.mapData,
      Transform.GetParentTransform, Transform.data, Transform.mfp_snd]

/-- C9 witness: the amended theorem instantiated at a default child of
the concrete parent at (1,0) and the concrete source transform. -/
theorem C9_replace_pose_witness :
    (pC1.coherent ∧ pC1.invertibleChain) ∧
    ((((Transform.node dDirty pC1).Replace oC9).Position).1 =
        (oC9.Position).1 ∧
     ((Transform.node dDirty pC1).Replace oC9).Offset = oC9.Offset ∧
     ((Transform.node dDirty pC1).Replace oC9).Origin = oC9.Origin ∧
     ((Transform.node dDirty pC1).Replace oC9).Scale = dDirty.scale ∧
     ((Transform.node dDirty pC1).Replace oC9).GetParentTransform =
       some pC1.refreshChainP ∧
     ((Transform.node dDirty pC1).Replace oC9).Rotation = dDirty.rotation ∧
     (((Transform.root dDirty).Replace oC9).Position).1 = (oC9.Position).1 ∧
     ((Transform.root dDirty).Replace oC9).Rotation = oC9.Rotation ∧
     ((Transform.root dDirty).Replace oC9).Scale = dDirty.scale ∧
     ((Transform.root dDirty).Replace oC9).Connected = false) :=
  ⟨⟨pC1_coherent, pC1_invertible⟩,
   C9_replace_pose dDirty dDirty pC1 oC9 pC1_coherent pC1_invertible⟩

end EbiMath
